import Mathlib

/-!
Verification development for the ai-church-rotation ingestion pipeline
(`src/loader.py`): a shallow embedding of the data loaders and the demand
builder, together with theorems settling the specified properties.

Tables are embedded as lists of row records (one structure per physical
schema); pandas iteration becomes structural recursion, Python `dict`s
become association lists with insert-or-replace semantics, Python `set`s
become `Finset`s, and `raise ValueError(...)` becomes `Except LoadError`
with one constructor per raise site carrying the interpolated payload.
Dates are represented as already-parsed totally-ordered `Nat` values.
-/

/-- ASCII whitespace predicate, the character class stripped by Python
`str.strip()` (modelled on the common ASCII subset). -/
def isWs (c : Char) : Bool :=
  c == ' ' || c == '\t' || c == '\n' || c == '\r'

/-- Strip leading and trailing whitespace characters from a character list:
the semantics of Python `str.strip()` on the underlying characters. -/
def trimChars (cs : List Char) : List Char :=
  ((cs.dropWhile isWs).reverse.dropWhile isWs).reverse

/-- Python `str.strip()` on strings. -/
def trimStr (s : String) : String :=
  String.mk (trimChars s.data)

/-- The uppercase-to-lowercase letter pairs of the ASCII alphabet. -/
def upperLower : List (Char × Char) :=
  [('A', 'a'), ('B', 'b'), ('C', 'c'), ('D', 'd'), ('E', 'e'), ('F', 'f'),
   ('G', 'g'), ('H', 'h'), ('I', 'i'), ('J', 'j'), ('K', 'k'), ('L', 'l'),
   ('M', 'm'), ('N', 'n'), ('O', 'o'), ('P', 'p'), ('Q', 'q'), ('R', 'r'),
   ('S', 's'), ('T', 't'), ('U', 'u'), ('V', 'v'), ('W', 'w'), ('X', 'x'),
   ('Y', 'y'), ('Z', 'z')]

/-- ASCII lowercasing of a single character (uppercase letters map to their
lowercase forms, everything else is fixed). -/
def lowerChar (c : Char) : Char :=
  ((upperLower.find? (fun p => p.1 == c)).map Prod.snd).getD c

/-- Modelled from the spec: `get_key_fingerprint` lives in `src/utils.py`,
which is absent from the sources; §4.1 requires a pure deterministic
canonical key that identifies names up to (at minimum) casing and
surrounding-whitespace differences. Modelled as lowercasing followed by
stripping surrounding whitespace. -/
def get_key_fingerprint (name : String) : String :=
  String.mk (trimChars (name.data.map lowerChar))

/-- Error taxonomy of the loaders (§7): one constructor per raise site,
carrying exactly the data the source interpolates into the message. -/
inductive LoadError where
  | duplicateIdentity (name fingerprint : String)
  | unknownMember (name : String)
  | undefinedTemplate (date : Nat) (templateName : String)
  | malformedField (raw : String)
deriving Repr, DecidableEq

/-- Association-list lookup (first binding wins), modelling Python `dict`
access where the list carries at most one binding per key. -/
def lookupFM {β : Type} : List (String × β) → String → Option β
  | [], _ => none
  | (k, v) :: rest, key => if k = key then some v else lookupFM rest key

/-- Python `dict` assignment `d[k] = v`: replace the existing binding in
place, or append a new one. -/
def insertOrReplace {β : Type} : List (String × β) → String → β → List (String × β)
  | [], key, v => [(key, v)]
  | (k, w) :: rest, key, v =>
      if k = key then (key, v) :: rest else (k, w) :: insertOrReplace rest key v

/- ### Data model (`src/model.py` records, per spec §3) -/

/-- One row of the members CSV (columns id, name, roles, max_shifts). -/
structure MemberRow where
  id : Int
  name : String
  roles : String
  max_shifts : Int
deriving Repr, DecidableEq

/-- A loaded member. Roles are a Python `set` of strings, embedded as a
`Finset`. -/
structure Member where
  id : Int
  name : String
  roles : Finset String
  max_shifts : Int
deriving DecidableEq

/-- The role set parsed from the delimited roles field: split on `";"`,
strip each token, collect into a set. -/
def parseRoles (raw : String) : Finset String :=
  ((raw.splitOn ";").map trimStr).toFinset

/-- The `Member` built from one roster row in `load_members`. -/
def mkMember (row : MemberRow) : Member :=
  { id := row.id
    name := trimStr row.name
    roles := parseRoles row.roles
    max_shifts := row.max_shifts }

/-- The fingerprint computed for a roster row in `load_members` (the raw
name is stripped first, then fingerprinted). -/
def rowFingerprint (row : MemberRow) : String :=
  get_key_fingerprint (trimStr row.name)

/-- Row loop of `DataLoader.load_members`, with the fingerprint map
accumulated so far: reject on fingerprint collision, otherwise record the
binding and emit the member. -/
def load_members_go : List MemberRow → List (String × Int) →
    Except LoadError (List Member × List (String × Int))
  | [], fmap => .ok ([], fmap)
  | row :: rest, fmap =>
      if (lookupFM fmap (rowFingerprint row)).isSome then
        .error (.duplicateIdentity (trimStr row.name) (rowFingerprint row))
      else
        match load_members_go rest (fmap ++ [(rowFingerprint row, row.id)]) with
        | .error e => .error e
        | .ok (ms, fm) => .ok (mkMember row :: ms, fm)

/-- `DataLoader.load_members` on an existing, already-read members table. -/
def load_members (rows : List MemberRow) :
    Except LoadError (List Member × List (String × Int)) :=
  load_members_go rows []

/- ### Unavailability loader -/

/-- One row of the unavailabilities CSV (columns name, date); the date is
represented already parsed. -/
structure URow where
  name : String
  date : Nat
deriving Repr, DecidableEq

/-- Row loop of `DataLoader.load_unavailability` on an existing table:
resolve each row's name through the fingerprint map, rejecting unresolvable
names, and collect the (member id, date) pairs into a set. -/
def load_unavailability (fmap : List (String × Int)) :
    List URow → Except LoadError (Finset (Int × Nat))
  | [] => .ok ∅
  | row :: rest =>
      match lookupFM fmap (get_key_fingerprint row.name) with
      | none => .error (.unknownMember row.name)
      | some memberId =>
          match load_unavailability fmap rest with
          | .error e => .error e
          | .ok s => .ok (insert (memberId, row.date) s)

/- ### Template loader -/

/-- One row of the service-templates CSV (columns event_template, role,
min_qty, max_qty). The quantity cells are raw strings fed to `int(...)`. -/
structure TemplateRow where
  event_template : String
  role : String
  min_qty : String
  max_qty : String
deriving Repr, DecidableEq

/-- One rule of a template: role plus quantity bounds. -/
structure TemplateRule where
  role : String
  min_qty : Int
  max_qty : Int
deriving Repr, DecidableEq

/-- A named template: ordered list of rules. -/
structure EventTemplate where
  name : String
  rules : List TemplateRule
deriving Repr, DecidableEq

/-- Digit list to number, most significant first. -/
def digitsToNat : List Char → Nat → Nat
  | [], acc => acc
  | c :: cs, acc => digitsToNat cs (acc * 10 + (c.toNat - 48))

/-- Python `int(s)` on a decimal string: surrounding whitespace allowed,
optional sign, then a nonempty digit run; anything else raises. -/
def pythonInt (s : String) : Except LoadError Int :=
  let cs := trimChars s.data
  let signed : Int × List Char :=
    match cs with
    | '+' :: rest => (1, rest)
    | '-' :: rest => (-1, rest)
    | _ => (1, cs)
  if signed.2 ≠ [] ∧ signed.2.all (·.isDigit) then
    .ok (signed.1 * (digitsToNat signed.2 0 : Int))
  else
    .error (.malformedField s)

/-- One `TemplateRule` from one template row (`int` applied to each
quantity cell, failing on the first malformed one). -/
def parseRule (row : TemplateRow) : Except LoadError TemplateRule :=
  match pythonInt row.min_qty with
  | .error e => .error e
  | .ok mn =>
      match pythonInt row.max_qty with
      | .error e => .error e
      | .ok mx => .ok { role := row.role, min_qty := mn, max_qty := mx }

/-- Rule list of one group, in table row order, first parse failure
aborting. -/
def parseRules : List TemplateRow → Except LoadError (List TemplateRule)
  | [] => .ok []
  | row :: rest =>
      match parseRule row with
      | .error e => .error e
      | .ok rule =>
          match parseRules rest with
          | .error e => .error e
          | .ok rules => .ok (rule :: rules)

/-- Lexicographic comparison of character lists by code point, the string
order pandas sorts group keys with (structurally recursive so that it
evaluates definitionally). -/
def strLeb : List Char → List Char → Bool
  | [], _ => true
  | _ :: _, [] => false
  | a :: as, b :: bs =>
      if a.toNat < b.toNat then true
      else if b.toNat < a.toNat then false
      else strLeb as bs

/-- Code-point-lexicographic order on strings. -/
def keyLe (a b : String) : Prop := strLeb a.data b.data = true

instance : DecidableRel keyLe := fun a b =>
  inferInstanceAs (Decidable (strLeb a.data b.data = true))

/-- Group-key order of `df.groupby(...)`: the distinct raw template names,
sorted ascending (pandas groupby sorts keys by default). -/
def groupKeys (rows : List TemplateRow) : List String :=
  List.insertionSort keyLe (rows.map (·.event_template)).dedup

/-- Group loop of `DataLoader.load_templates`: for each raw group key in
order, build the group's rules from its rows (in original row order) and
assign the template into the dict under the trimmed key. -/
def load_templates_go (rows : List TemplateRow)
    (acc : List (String × EventTemplate)) :
    List String → Except LoadError (List (String × EventTemplate))
  | [] => .ok acc
  | key :: keys =>
      match parseRules (rows.filter (fun r => r.event_template = key)) with
      | .error e => .error e
      | .ok rules =>
          load_templates_go rows
            (insertOrReplace acc (trimStr key)
              { name := trimStr key, rules := rules }) keys

/-- `DataLoader.load_templates` on an existing, already-read table. -/
def load_templates (rows : List TemplateRow) :
    Except LoadError (List (String × EventTemplate)) :=
  load_templates_go rows [] (groupKeys rows)

/- ### Event loader -/

/-- One row of the schedule CSV (columns date, event_template), the date
already parsed. -/
structure EventRow where
  date : Nat
  event_template : String
deriving Repr, DecidableEq

/-- A scheduled event. -/
structure Event where
  date : Nat
  event_template : String
deriving Repr, DecidableEq

/-- The `Event` built from one schedule row (template name stripped). -/
def mkEvent (row : EventRow) : Event :=
  { date := row.date, event_template := trimStr row.event_template }

/-- Date order on events, the sort key of `load_events`. -/
def eventLe (a b : Event) : Prop := a.date ≤ b.date

instance : DecidableRel eventLe := fun a b => Nat.decLe a.date b.date

instance : IsTotal Event eventLe := ⟨fun a b => Nat.le_total a.date b.date⟩

instance : IsTrans Event eventLe := ⟨fun _ _ _ h h' => Nat.le_trans h h'⟩

/-- `DataLoader.load_events` on an existing, already-read table: build the
events in row order, then sort ascending by date with a stable sort
(Python `sorted`). -/
def load_events (rows : List EventRow) : List Event :=
  List.insertionSort eventLe (rows.map mkEvent)

/- ### Demand builder -/

/-- One role-demand record, the atomic output unit. -/
structure RoleDemand where
  date : Nat
  event_type : String
  role : String
  min_qty : Int
  max_qty : Int
  source : String
deriving Repr, DecidableEq

/-- The demand one event generates for one rule of its template. -/
def mkDemand (e : Event) (t : EventTemplate) (rule : TemplateRule) : RoleDemand :=
  { date := e.date
    event_type := t.name
    role := rule.role
    min_qty := rule.min_qty
    max_qty := rule.max_qty
    source := "Template" }

/-- `DataLoader.build_standard_schedule`: expand each event, in order,
against its named template into one demand per rule, in rule order;
an event whose template is absent from the map aborts the build with a
configuration error carrying the event's date and template name. -/
def build_standard_schedule (templates_map : List (String × EventTemplate)) :
    List Event → Except LoadError (List RoleDemand)
  | [] => .ok []
  | e :: rest =>
      match lookupFM templates_map e.event_template with
      | none => .error (.undefinedTemplate e.date e.event_template)
      | some t =>
          match build_standard_schedule templates_map rest with
          | .error err => .error err
          | .ok demands => .ok (t.rules.map (mkDemand e t) ++ demands)

/-- Spec-side characterization of the Demand Builder's output (§4.6/§8):
the concatenation, over events in order, of one demand per rule of the
event's template in rule order. Compared against
`build_standard_schedule` in the refinement theorem. -/
def specExpand (templates_map : List (String × EventTemplate)) :
    List Event → List RoleDemand
  | [] => []
  | e :: rest =>
      (match lookupFM templates_map e.event_template with
       | some t => t.rules.map (mkDemand e t)
       | none => []) ++ specExpand templates_map rest

/- ### Helper lemmas -/

theorem upperLower_not_ws :
    ∀ p ∈ upperLower, isWs p.1 = false ∧ isWs p.2 = false := by decide

theorem isWs_lowerChar (c : Char) : isWs (lowerChar c) = isWs c := by
  unfold lowerChar
  cases hf : upperLower.find? (fun p => p.1 == c) with
  | none => rfl
  | some p =>
      have hp := List.mem_of_find?_eq_some hf
      have hc : p.1 = c := by
        have := List.find?_some hf
        simpa using this
      have hws := upperLower_not_ws p hp
      simp [← hc, hws.1, hws.2]

theorem dropWhile_map_lowerChar (l : List Char) :
    (l.map lowerChar).dropWhile isWs = (l.dropWhile isWs).map lowerChar := by
  induction l with
  | nil => rfl
  | cons c cs ih =>
      simp only [List.map_cons, List.dropWhile_cons, isWs_lowerChar]
      cases h : isWs c with
      | true => simpa [h] using ih
      | false => simp [h]

theorem trimChars_map_lowerChar (l : List Char) :
    trimChars (l.map lowerChar) = (trimChars l).map lowerChar := by
  unfold trimChars
  rw [dropWhile_map_lowerChar, ← List.map_reverse, dropWhile_map_lowerChar,
    ← List.map_reverse]

theorem dropWhile_ws_append (w l : List Char) (hw : ∀ c ∈ w, isWs c = true) :
    (w ++ l).dropWhile isWs = l.dropWhile isWs := by
  induction w with
  | nil => rfl
  | cons c cs ih =>
      have hc : isWs c = true := hw c (List.mem_cons_self c cs)
      simp only [List.cons_append, List.dropWhile_cons, hc, if_true]
      exact ih fun x hx => hw x (List.mem_cons_of_mem c hx)

/-- C6: the Identity Fingerprinter is a pure, deterministic function of its
input (definitionally, being a Lean function: equal inputs give equal keys),
and it is case- and whitespace-insensitive: names equal up to letter case
(equal images under character-wise lowercasing) fingerprint identically, and
names equal up to surrounding whitespace (equal stripped character lists)
fingerprint identically. -/
theorem get_key_fingerprint_insensitive :
    (∀ s t : String, s = t → get_key_fingerprint s = get_key_fingerprint t) ∧
    (∀ s t : String, s.data.map lowerChar = t.data.map lowerChar →
      get_key_fingerprint s = get_key_fingerprint t) ∧
    (∀ s t : String, trimChars s.data = trimChars t.data →
      get_key_fingerprint s = get_key_fingerprint t) := by
  refine ⟨fun s t h => by rw [h], fun s t h => ?_, fun s t h => ?_⟩
  · unfold get_key_fingerprint
    rw [h]
  · unfold get_key_fingerprint
    rw [trimChars_map_lowerChar, trimChars_map_lowerChar, h]

/-- Witness for C6 at concrete names: "Ann LEE" vs "ann lee" differ only in
case, and " ann lee  " vs "ann lee" differ only in surrounding whitespace. -/
theorem get_key_fingerprint_insensitive_witness :
    get_key_fingerprint "Ann LEE" = get_key_fingerprint "ann lee" ∧
    get_key_fingerprint " ann lee  " = get_key_fingerprint "ann lee" :=
  ⟨get_key_fingerprint_insensitive.2.1 "Ann LEE" "ann lee" (by decide),
   get_key_fingerprint_insensitive.2.2 " ann lee  " "ann lee" (by decide)⟩

theorem lookupFM_eq_none {β : Type} (m : List (String × β)) (k : String) :
    lookupFM m k = none ↔ k ∉ m.map Prod.fst := by
  induction m with
  | nil => simp [lookupFM]
  | cons p rest ih =>
      obtain ⟨k', v⟩ := p
      by_cases h : k' = k <;> simp [lookupFM, h, ih, Ne.symm]

theorem lookupFM_isSome {β : Type} (m : List (String × β)) (k : String) :
    (lookupFM m k).isSome = true ↔ k ∈ m.map Prod.fst := by
  rw [← Decidable.not_iff_not, ← lookupFM_eq_none]
  cases lookupFM m k <;> simp

theorem load_members_go_of_nodup (rows : List MemberRow) :
    ∀ fmap : List (String × Int),
      (fmap.map Prod.fst ++ rows.map rowFingerprint).Nodup →
      load_members_go rows fmap =
        .ok (rows.map mkMember,
          fmap ++ rows.map (fun r => (rowFingerprint r, r.id))) := by
  induction rows with
  | nil => intro fmap _; simp [load_members_go]
  | cons row rest ih =>
      intro fmap h
      have hnotin : rowFingerprint row ∉ fmap.map Prod.fst := by
        intro hmem
        have hdisj := (List.nodup_append.mp h).2.2
        exact hdisj hmem (by simp)
      have hguard : (lookupFM fmap (rowFingerprint row)).isSome = false := by
        rw [Bool.eq_false_iff]
        intro hs
        exact hnotin ((lookupFM_isSome fmap (rowFingerprint row)).mp hs)
      have hrec :
          ((fmap ++ [(rowFingerprint row, row.id)]).map Prod.fst ++
            rest.map rowFingerprint).Nodup := by
        simpa [List.append_assoc] using h
      simp only [load_members_go, hguard, Bool.false_eq_true, if_false,
        ih (fmap ++ [(rowFingerprint row, row.id)]) hrec]
      simp

theorem load_members_go_of_dup (rows : List MemberRow) :
    ∀ fmap : List (String × Int),
      (fmap.map Prod.fst).Nodup →
      ¬ (fmap.map Prod.fst ++ rows.map rowFingerprint).Nodup →
      ∃ n f, load_members_go rows fmap = .error (.duplicateIdentity n f) := by
  induction rows with
  | nil => intro fmap hk h; simp at h; exact absurd hk h
  | cons row rest ih =>
      intro fmap hk h
      cases hguard : (lookupFM fmap (rowFingerprint row)).isSome with
      | true =>
          exact ⟨trimStr row.name, rowFingerprint row, by
            simp [load_members_go, hguard]⟩
      | false =>
          have hnotin : rowFingerprint row ∉ fmap.map Prod.fst := by
            intro hmem
            rw [← lookupFM_isSome fmap (rowFingerprint row)] at hmem
            rw [hguard] at hmem
            exact Bool.false_ne_true hmem
          have hk' : ((fmap ++ [(rowFingerprint row, row.id)]).map Prod.fst).Nodup := by
            simp only [List.map_append]
            rw [List.nodup_append]
            exact ⟨hk, List.nodup_singleton _, by simpa using hnotin⟩
          have h' : ¬ (((fmap ++ [(rowFingerprint row, row.id)]).map Prod.fst) ++
              rest.map rowFingerprint).Nodup := by
            intro hcontra
            exact h (by simpa [List.append_assoc] using hcontra)
          obtain ⟨n, f, hnf⟩ := ih (fmap ++ [(rowFingerprint row, row.id)]) hk' h'
          refine ⟨n, f, ?_⟩
          simp only [load_members_go, hguard, Bool.false_eq_true, if_false, hnf]

theorem load_members_ok_inv (rows : List MemberRow) (ms : List Member)
    (fm : List (String × Int)) (h : load_members rows = .ok (ms, fm)) :
    ms = rows.map mkMember ∧
    fm = rows.map (fun r => (rowFingerprint r, r.id)) ∧
    (rows.map rowFingerprint).Nodup := by
  by_cases hnd : (rows.map rowFingerprint).Nodup
  · have hok := load_members_go_of_nodup rows [] (by simpa using hnd)
    unfold load_members at h
    rw [hok] at h
    simp only [Except.ok.injEq, Prod.mk.injEq, List.nil_append] at h
    exact ⟨h.1.symm, h.2.symm, hnd⟩
  · obtain ⟨n, f, herr⟩ := load_members_go_of_dup rows [] (by simp) (by simpa using hnd)
    unfold load_members at h
    rw [herr] at h
    exact absurd h (by simp)

/-- C2: the Member Loader fails with a duplicate-identity error exactly when
two distinct rows fingerprint to the same key, and otherwise returns one
`Member` per row in file order together with the fingerprint-to-id map —
never merging rows and never keeping only the last of a colliding pair. -/
theorem load_members_duplicate_iff (rows : List MemberRow) :
    (¬ (rows.map rowFingerprint).Nodup →
      ∃ n f, load_members rows = .error (.duplicateIdentity n f)) ∧
    ((rows.map rowFingerprint).Nodup →
      load_members rows =
        .ok (rows.map mkMember, rows.map (fun r => (rowFingerprint r, r.id)))) := by
  constructor
  · intro hdup
    exact load_members_go_of_dup rows [] (by simp) (by simpa using hdup)
  · intro hnd
    have hok := load_members_go_of_nodup rows [] (by simpa using hnd)
    unfold load_members
    rw [hok]
    simp

/-- Witness for C2: a roster whose two names collide under fingerprinting is
rejected; a roster with distinct fingerprints loads one member per row. -/
theorem load_members_duplicate_iff_witness :
    (∃ n f, load_members [⟨1, "Ann Lee", "usher", 3⟩, ⟨2, " ann LEE ", "greeter", 4⟩] =
      .error (.duplicateIdentity n f)) ∧
    load_members [⟨1, "Ann", "usher", 3⟩, ⟨2, "Bob", "greeter", 4⟩] =
      .ok ([⟨1, "Ann", "usher", 3⟩, ⟨2, "Bob", "greeter", 4⟩].map mkMember,
        [⟨(1 : Int), "Ann", "usher", 3⟩, ⟨2, "Bob", "greeter", 4⟩].map
          (fun r => (rowFingerprint r, r.id))) :=
  ⟨(load_members_duplicate_iff _).1 (by decide),
   (load_members_duplicate_iff _).2 (by decide)⟩

/-- C9 counterexample: two roster rows with distinct names but the same
identifier are accepted by the Member Loader (only fingerprints are checked
for uniqueness), so the returned identifiers are not pairwise distinct. -/
theorem load_members_id_unique_counterexample :
    (load_members [⟨1, "Ann", "usher", 3⟩, ⟨1, "Bob", "usher", 3⟩]).toOption.map
      (fun p => p.1.map Member.id) = some [1, 1] ∧
    ¬ ([1, 1] : List Int).Nodup := by
  constructor
  · rfl
  · decide

/-- C9 (amended): for every roster table the Member Loader accepts, the
fingerprints of the returned members' names are pairwise distinct;
identifier uniqueness is not validated. -/
theorem load_members_fingerprints_nodup (rows : List MemberRow)
    (ms : List Member) (fm : List (String × Int))
    (h : load_members rows = .ok (ms, fm)) :
    (ms.map (fun m => get_key_fingerprint m.name)).Nodup := by
  obtain ⟨hms, _, hnd⟩ := load_members_ok_inv rows ms fm h
  subst hms
  simpa [List.map_map, Function.comp, mkMember, rowFingerprint] using hnd

/-- Witness for C9 (amended) on a concrete two-row roster. -/
theorem load_members_fingerprints_nodup_witness :
    (([mkMember ⟨1, "Ann", "usher", 3⟩, mkMember ⟨2, "Bob", "greeter", 4⟩]).map
      (fun m => get_key_fingerprint m.name)).Nodup :=
  load_members_fingerprints_nodup
    [⟨1, "Ann", "usher", 3⟩, ⟨2, "Bob", "greeter", 4⟩]
    [mkMember ⟨1, "Ann", "usher", 3⟩, mkMember ⟨2, "Bob", "greeter", 4⟩]
    [(rowFingerprint ⟨1, "Ann", "usher", 3⟩, 1),
     (rowFingerprint ⟨2, "Bob", "greeter", 4⟩, 2)]
    (by rfl)

/-- C10: in any accepted roster, each member's role set is the set of
`";"`-separated tokens of that row's roles field with surrounding
whitespace stripped from each token; membership is exactly "some token
strips to it", so duplicate tokens collapse and token order is immaterial. -/
theorem load_members_roles_parsing (rows : List MemberRow)
    (ms : List Member) (fm : List (String × Int))
    (h : load_members rows = .ok (ms, fm))
    (i : Nat) (hi : i < rows.length) (hm : i < ms.length) (r : String) :
    (ms.get ⟨i, hm⟩).roles =
      (((rows.get ⟨i, hi⟩).roles.splitOn ";").map trimStr).toFinset ∧
    (r ∈ (ms.get ⟨i, hm⟩).roles ↔
      ∃ tok ∈ (rows.get ⟨i, hi⟩).roles.splitOn ";", trimStr tok = r) := by
  obtain ⟨hms, _, _⟩ := load_members_ok_inv rows ms fm h
  subst hms
  simp only [List.get_eq_getElem, List.getElem_map]
  constructor
  · rfl
  · simp [mkMember, parseRoles]

/-- Witness for C10: in the roster row with roles field
"usher; lead;usher", the member's role set contains "lead". -/
theorem load_members_roles_parsing_witness :
    (([mkMember ⟨1, "Ann", "usher; lead;usher", 3⟩]).get ⟨0, Nat.one_pos⟩).roles =
      ((("usher; lead;usher").splitOn ";").map trimStr).toFinset ∧
    ("lead" ∈ (([mkMember ⟨1, "Ann", "usher; lead;usher", 3⟩]).get ⟨0, Nat.one_pos⟩).roles ↔
      ∃ tok ∈ ("usher; lead;usher").splitOn ";", trimStr tok = "lead") :=
  load_members_roles_parsing
    [⟨1, "Ann", "usher; lead;usher", 3⟩]
    [mkMember ⟨1, "Ann", "usher; lead;usher", 3⟩]
    [(rowFingerprint ⟨1, "Ann", "usher; lead;usher", 3⟩, 1)]
    (by rfl) 0 Nat.one_pos Nat.one_pos "lead"

/-- C4: on an existing unavailability table, an unresolvable name makes the
loader fail with an unknown-member error naming that row's name (rows are
never silently dropped), and when every name resolves it returns exactly
the set of (resolved member id, date) pairs of the rows. -/
theorem load_unavailability_resolution (fmap : List (String × Int))
    (rows : List URow) :
    ((∃ r ∈ rows, lookupFM fmap (get_key_fingerprint r.name) = none) →
      ∃ n, load_unavailability fmap rows = .error (.unknownMember n) ∧
        n ∈ rows.map URow.name ∧
        lookupFM fmap (get_key_fingerprint n) = none) ∧
    ((∀ r ∈ rows, (lookupFM fmap (get_key_fingerprint r.name)).isSome) →
      load_unavailability fmap rows =
        .ok ((rows.map (fun r =>
          ((lookupFM fmap (get_key_fingerprint r.name)).getD 0, r.date))).toFinset)) := by
  constructor
  · intro hbad
    induction rows with
    | nil => simp at hbad
    | cons row rest ih =>
        cases hl : lookupFM fmap (get_key_fingerprint row.name) with
        | none =>
            refine ⟨row.name, ?_, by simp, hl⟩
            simp [load_unavailability, hl]
        | some mid =>
            obtain ⟨r, hr, hnone⟩ := hbad
            rcases List.mem_cons.mp hr with rfl | hr'
            · rw [hl] at hnone; cases hnone
            · obtain ⟨n, herr, hnmem, hn⟩ := ih ⟨r, hr', hnone⟩
              refine ⟨n, ?_, by simp [hnmem], hn⟩
              simp [load_unavailability, hl, herr]
  · intro hgood
    induction rows with
    | nil => simp [load_unavailability]
    | cons row rest ih =>
        obtain ⟨mid, hmid⟩ :=
          Option.isSome_iff_exists.mp (hgood row (List.mem_cons_self row rest))
        have ih' := ih (fun r hr => hgood r (List.mem_cons_of_mem _ hr))
        simp only [load_unavailability, hmid, ih', List.map_cons,
          List.toFinset_cons, Option.getD_some]

/-- Witness for C4: a dangling name is rejected; resolvable rows produce the
resolved pair set. -/
theorem load_unavailability_resolution_witness :
    (∃ n, load_unavailability [("ann lee", (7 : Int))] [⟨"Bob", 5⟩] =
      .error (.unknownMember n) ∧
      n ∈ [URow.mk "Bob" 5].map URow.name ∧
      lookupFM [("ann lee", (7 : Int))] (get_key_fingerprint n) = none) ∧
    load_unavailability [("ann lee", (7 : Int))] [⟨" Ann LEE ", 5⟩] =
      .ok (([URow.mk " Ann LEE " 5].map (fun r =>
        ((lookupFM [("ann lee", (7 : Int))] (get_key_fingerprint r.name)).getD 0,
          r.date))).toFinset) :=
  ⟨(load_unavailability_resolution [("ann lee", (7 : Int))] [⟨"Bob", 5⟩]).1
      ⟨⟨"Bob", 5⟩, by simp, by decide⟩,
   (load_unavailability_resolution [("ann lee", (7 : Int))] [⟨" Ann LEE ", 5⟩]).2
      (by decide)⟩

theorem filter_orderedInsert_eventLe (a : Event) (d : Nat) (l : List Event) :
    (List.orderedInsert eventLe a l).filter (fun e => e.date = d) =
      if a.date = d then a :: l.filter (fun e => e.date = d)
      else l.filter (fun e => e.date = d) := by
  induction l with
  | nil =>
      by_cases h : a.date = d <;> simp [List.orderedInsert, h]
  | cons b bs ih =>
      by_cases hab : eventLe a b
      · rw [List.orderedInsert_of_le eventLe bs hab]
        by_cases h : a.date = d <;> simp [List.filter_cons, h]
      · have hstep : List.orderedInsert eventLe a (b :: bs) =
            b :: List.orderedInsert eventLe a bs := by
          simp [List.orderedInsert, hab]
        rw [hstep]
        by_cases hbd : b.date = d
        · have had : a.date ≠ d := by
            have hlt : b.date < a.date := Nat.lt_of_not_le hab
            omega
          simp [List.filter_cons, hbd, had, ih]
        · simp [List.filter_cons, hbd, ih]

theorem filter_insertionSort_eventLe (d : Nat) (l : List Event) :
    (List.insertionSort eventLe l).filter (fun e => e.date = d) =
      l.filter (fun e => e.date = d) := by
  induction l with
  | nil => rfl
  | cons a as ih =>
      show (List.orderedInsert eventLe a (List.insertionSort eventLe as)).filter _ = _
      rw [filter_orderedInsert_eventLe]
      by_cases h : a.date = d <;> simp [List.filter_cons, h, ih]

/-- C5: the Event Loader returns the parsed events (dates kept, template
names trimmed) sorted ascending by date; the sort permutes the parsed rows
and is stable: for each date, the events of that date appear exactly as in
the original row order. -/
theorem load_events_sorted_stable (rows : List EventRow) :
    (load_events rows).Pairwise eventLe ∧
    (load_events rows).Perm (rows.map mkEvent) ∧
    (∀ e ∈ load_events rows, ∃ q ∈ rows,
      e.date = q.date ∧ e.event_template = trimStr q.event_template) ∧
    (∀ d : Nat, (load_events rows).filter (fun e => e.date = d) =
      (rows.map mkEvent).filter (fun e => e.date = d)) := by
  refine ⟨List.sorted_insertionSort eventLe (rows.map mkEvent),
    List.perm_insertionSort eventLe (rows.map mkEvent), ?_, ?_⟩
  · intro e he
    have hmem : e ∈ rows.map mkEvent :=
      (List.perm_insertionSort eventLe (rows.map mkEvent)).mem_iff.mp he
    obtain ⟨q, hq, hqe⟩ := List.mem_map.mp hmem
    exact ⟨q, hq, by rw [← hqe]; exact ⟨rfl, rfl⟩⟩
  · intro d
    exact filter_insertionSort_eventLe d (rows.map mkEvent)

/-- C1: when every event's template name is present in the template map,
the Demand Builder returns the concatenation, over events in order, of one
demand per rule of the event's template in rule order (each demand carrying
the event's date, the template's name as event type, the rule's role and
quantity bounds, and the provenance tag "Template"); consequently the
number of demand records is the sum over events of their templates' rule
counts. -/
theorem build_standard_schedule_ok (templates_map : List (String × EventTemplate))
    (events : List Event)
    (h : ∀ e ∈ events, (lookupFM templates_map e.event_template).isSome) :
    build_standard_schedule templates_map events =
      .ok (specExpand templates_map events) ∧
    (specExpand templates_map events).length =
      (events.map (fun e =>
        ((lookupFM templates_map e.event_template).map
          (fun t => t.rules.length)).getD 0)).sum := by
  induction events with
  | nil => exact ⟨rfl, rfl⟩
  | cons e es ih =>
      obtain ⟨t, ht⟩ :=
        Option.isSome_iff_exists.mp (h e (List.mem_cons_self e es))
      have ih' := ih (fun x hx => h x (List.mem_cons_of_mem _ hx))
      constructor
      · simp only [build_standard_schedule, ht, ih'.1, specExpand]
      · simp only [specExpand, ht, List.length_append, List.length_map,
          List.map_cons, List.sum_cons, Option.map_some', Option.getD_some,
          ih'.2]

/-- Witness for C1, the end-to-end scenario of §8: template "Sunday" with
rules (usher,1,2) and (greeter,1,1) and one event on the encoded date
2024-01-07 yield exactly those two demands, in that order. -/
theorem build_standard_schedule_ok_witness :
    build_standard_schedule
      [("Sunday", ⟨"Sunday", [⟨"usher", 1, 2⟩, ⟨"greeter", 1, 1⟩]⟩)]
      [⟨20240107, "Sunday"⟩] =
      .ok [⟨20240107, "Sunday", "usher", 1, 2, "Template"⟩,
           ⟨20240107, "Sunday", "greeter", 1, 1, "Template"⟩] :=
  ((build_standard_schedule_ok
      [("Sunday", ⟨"Sunday", [⟨"usher", 1, 2⟩, ⟨"greeter", 1, 1⟩]⟩)]
      [⟨20240107, "Sunday"⟩] (by decide)).1).trans (by rfl)

/-- C3: if the event list decomposes as resolvable events followed by a
first event whose template name is absent from the map, the Demand Builder
fails with a configuration error carrying that event's date and template
name, returning no demand list at all. -/
theorem build_standard_schedule_undefined
    (templates_map : List (String × EventTemplate))
    (pre : List Event) (e : Event) (post : List Event)
    (hpre : ∀ x ∈ pre, (lookupFM templates_map x.event_template).isSome)
    (he : lookupFM templates_map e.event_template = none) :
    build_standard_schedule templates_map (pre ++ e :: post) =
      .error (.undefinedTemplate e.date e.event_template) := by
  induction pre with
  | nil => simp [build_standard_schedule, he]
  | cons x xs ih =>
      obtain ⟨t, ht⟩ :=
        Option.isSome_iff_exists.mp (hpre x (List.mem_cons_self x xs))
      have ih' := ih (fun y hy => hpre y (List.mem_cons_of_mem _ hy))
      simp only [List.cons_append, build_standard_schedule, ht]
      rw [List.append_eq, ih']

/-- Witness for C3: a schedule whose second event calls the undefined
template "Easter" aborts with that event's date and template name. -/
theorem build_standard_schedule_undefined_witness :
    build_standard_schedule
      [("Sunday", ⟨"Sunday", [⟨"usher", 1, 2⟩]⟩)]
      ([⟨20240107, "Sunday"⟩] ++ Event.mk 20240114 "Easter" :: []) =
      .error (.undefinedTemplate 20240114 "Easter") :=
  build_standard_schedule_undefined
    [("Sunday", ⟨"Sunday", [⟨"usher", 1, 2⟩]⟩)]
    [⟨20240107, "Sunday"⟩] (Event.mk 20240114 "Easter") []
    (by decide) (by decide)

theorem lookupFM_insertOrReplace {β : Type} (acc : List (String × β))
    (key : String) (v : β) (q : String) :
    lookupFM (insertOrReplace acc key v) q =
      if key = q then some v else lookupFM acc q := by
  induction acc with
  | nil => simp [insertOrReplace, lookupFM]
  | cons p rest ih =>
      obtain ⟨k0, w⟩ := p
      by_cases h0 : k0 = key
      · subst h0
        by_cases hq : k0 = q <;> simp [insertOrReplace, lookupFM, hq]
      · by_cases hq : k0 = q
        · subst hq
          have : ¬ key = k0 := fun hc => h0 hc.symm
          simp [insertOrReplace, lookupFM, h0, this]
        · simp [insertOrReplace, lookupFM, h0, hq, ih]

theorem parseRules_error_of_mem (l : List TemplateRow) (r : TemplateRow)
    (e : LoadError) (hr : r ∈ l) (he : parseRule r = .error e) :
    ∃ e', parseRules l = .error e' := by
  induction l with
  | nil => cases hr
  | cons x xs ih =>
      cases hx : parseRule x with
      | error e0 => exact ⟨e0, by simp [parseRules, hx]⟩
      | ok t =>
          rcases List.mem_cons.mp hr with rfl | h
          · rw [hx] at he; cases he
          · obtain ⟨e', he'⟩ := ih h
            refine ⟨e', ?_⟩
            simp [parseRules, hx, he']

theorem parseRules_ok_length (l : List TemplateRow) (rs : List TemplateRule)
    (h : parseRules l = .ok rs) : rs.length = l.length := by
  induction l generalizing rs with
  | nil =>
      simp only [parseRules, Except.ok.injEq] at h
      subst h; rfl
  | cons x xs ih =>
      cases hx : parseRule x with
      | error e => simp [parseRules, hx] at h
      | ok t =>
          cases hxs : parseRules xs with
          | error e => simp [parseRules, hx, hxs] at h
          | ok ts =>
              simp only [parseRules, hx, hxs, Except.ok.injEq] at h
              subst h
              simp [ih ts hxs]

theorem load_templates_go_spec (rows : List TemplateRow) :
    ∀ (keys : List String) (acc m : List (String × EventTemplate)),
      keys.Nodup →
      (∀ k ∈ keys, trimStr k = k) →
      load_templates_go rows acc keys = .ok m →
      ∀ name : String,
        (name ∈ keys →
          ∃ rules, lookupFM m name = some ⟨name, rules⟩ ∧
            parseRules (rows.filter (fun r => r.event_template = name)) =
              .ok rules) ∧
        (name ∉ keys → lookupFM m name = lookupFM acc name) := by
  intro keys
  induction keys with
  | nil =>
      intro acc m _ _ hgo name
      simp only [load_templates_go, Except.ok.injEq] at hgo
      subst hgo
      exact ⟨fun hmem => absurd hmem (List.not_mem_nil name), fun _ => rfl⟩
  | cons k ks ih =>
      intro acc m hnd htk hgo name
      have htkk : trimStr k = k := htk k (List.mem_cons_self k ks)
      cases hpr : parseRules (rows.filter (fun r => r.event_template = k)) with
      | error e => simp [load_templates_go, hpr] at hgo
      | ok rules =>
          simp only [load_templates_go, hpr] at hgo
          rw [htkk] at hgo
          have hknotin : k ∉ ks := (List.nodup_cons.mp hnd).1
          have ihm := ih (insertOrReplace acc k ⟨k, rules⟩) m
            (List.nodup_cons.mp hnd).2
            (fun x hx => htk x (List.mem_cons_of_mem _ hx)) hgo
          constructor
          · intro hmem
            rcases List.mem_cons.mp hmem with rfl | hmem'
            · refine ⟨rules, ?_, hpr⟩
              rw [(ihm name).2 hknotin, lookupFM_insertOrReplace]
              simp
            · exact (ihm name).1 hmem'
          · intro hnotmem
            have hne : ¬ k = name := fun hc => hnotmem (hc ▸ List.mem_cons_self k ks)
            rw [(ihm name).2 (fun hc => hnotmem (List.mem_cons_of_mem _ hc)),
              lookupFM_insertOrReplace, if_neg hne]

theorem groupKeys_nodup (rows : List TemplateRow) : (groupKeys rows).Nodup :=
  (List.perm_insertionSort _ _).symm.nodup
    (List.nodup_dedup (rows.map (fun r => r.event_template)))

theorem mem_groupKeys (rows : List TemplateRow) (k : String) :
    k ∈ groupKeys rows ↔ k ∈ rows.map (fun r => r.event_template) := by
  unfold groupKeys
  rw [(List.perm_insertionSort _ _).mem_iff, List.mem_dedup]

/-- C7 counterexample: two rows whose raw template names differ only by
surrounding whitespace form separate pandas groups that trim to the same
dict key, so the later group overwrites the earlier and the overwritten
group's row contributes no rule to the template registered under that
trimmed name — refuting "every row of the table contributes exactly one
rule to the template registered under its trimmed name". -/
theorem load_templates_row_drop_counterexample :
    load_templates [⟨"Sunday", "usher", "1", "1"⟩, ⟨" Sunday", "greeter", "1", "1"⟩] =
      .ok [("Sunday", ⟨"Sunday", [⟨"usher", 1, 1⟩]⟩)] ∧
    trimStr " Sunday" = "Sunday" :=
  ⟨by rfl, by rfl⟩

/-- C7 (amended): provided every row's template name is already trimmed (no
surrounding whitespace — the situation the counterexample excludes), the
Template Loader's mapping sends each template name occurring in the table
to the template of that name whose rule list is one rule per row of that
name in table row order, and sends absent names to nothing. -/
theorem load_templates_grouping (rows : List TemplateRow)
    (m : List (String × EventTemplate))
    (ht : ∀ r ∈ rows, trimStr r.event_template = r.event_template)
    (hok : load_templates rows = .ok m) (name : String) :
    (name ∈ rows.map (fun r => r.event_template) →
      ∃ rules, lookupFM m name = some ⟨name, rules⟩ ∧
        parseRules (rows.filter (fun r => r.event_template = name)) = .ok rules ∧
        rules.length = (rows.filter (fun r => r.event_template = name)).length) ∧
    (name ∉ rows.map (fun r => r.event_template) → lookupFM m name = none) := by
  have htk : ∀ k ∈ groupKeys rows, trimStr k = k := by
    intro k hk
    obtain ⟨r, hr, hrk⟩ := List.mem_map.mp ((mem_groupKeys rows k).mp hk)
    rw [← hrk]
    exact ht r hr
  have hspec := load_templates_go_spec rows (groupKeys rows) [] m
    (groupKeys_nodup rows) htk hok name
  constructor
  · intro hmem
    obtain ⟨rules, h1, h2⟩ := hspec.1 ((mem_groupKeys rows name).mpr hmem)
    exact ⟨rules, h1, h2, parseRules_ok_length _ _ h2⟩
  · intro hmem
    have := hspec.2 (fun hc => hmem ((mem_groupKeys rows name).mp hc))
    simpa [lookupFM] using this

/-- Witness for C7 (amended) on a trimmed three-row table with two
templates. -/
theorem load_templates_grouping_witness :
    ∃ rules : List TemplateRule,
      lookupFM
        ([("Sunday", ⟨"Sunday", [⟨"usher", 1, 2⟩, ⟨"greeter", 1, 1⟩]⟩),
          ("Wed", ⟨"Wed", [⟨"lead", 0, 1⟩]⟩)] :
          List (String × EventTemplate)) "Sunday" =
        some ⟨"Sunday", rules⟩ ∧
      parseRules
        (([⟨"Sunday", "usher", "1", "2"⟩, ⟨"Sunday", "greeter", "1", "1"⟩,
           ⟨"Wed", "lead", "0", "1"⟩] : List TemplateRow).filter
            (fun r => r.event_template = "Sunday")) = .ok rules ∧
      rules.length =
        (([⟨"Sunday", "usher", "1", "2"⟩, ⟨"Sunday", "greeter", "1", "1"⟩,
           ⟨"Wed", "lead", "0", "1"⟩] : List TemplateRow).filter
            (fun r => r.event_template = "Sunday")).length :=
  (load_templates_grouping
    [⟨"Sunday", "usher", "1", "2"⟩, ⟨"Sunday", "greeter", "1", "1"⟩,
     ⟨"Wed", "lead", "0", "1"⟩]
    [("Sunday", ⟨"Sunday", [⟨"usher", 1, 2⟩, ⟨"greeter", 1, 1⟩]⟩),
     ("Wed", ⟨"Wed", [⟨"lead", 0, 1⟩]⟩)]
    (by decide) (by rfl) "Sunday").1 (by decide)

theorem load_templates_go_error_of_bad_group (rows : List TemplateRow)
    (keys : List String) :
    ∀ acc : List (String × EventTemplate),
      (∃ k ∈ keys, ∃ e, parseRules
        (rows.filter (fun r => r.event_template = k)) = .error e) →
      ∃ err, load_templates_go rows acc keys = .error err := by
  induction keys with
  | nil =>
      intro acc h
      obtain ⟨k, hk, _⟩ := h
      cases hk
  | cons k0 ks ih =>
      intro acc h
      cases hp : parseRules (rows.filter (fun r => r.event_template = k0)) with
      | error e => exact ⟨e, by simp [load_templates_go, hp]⟩
      | ok rules =>
          obtain ⟨k, hk, e, he⟩ := h
          rcases List.mem_cons.mp hk with rfl | hk'
          · rw [hp] at he; cases he
          · obtain ⟨err, herr⟩ :=
              ih (insertOrReplace acc (trimStr k0) ⟨trimStr k0, rules⟩)
                ⟨k, hk', e, he⟩
            refine ⟨err, ?_⟩
            simp only [load_templates_go, hp]
            exact herr

/-- C8 counterexample: a template row whose min-quantity cell is "-1" is
accepted by the Template Loader and yields a rule with negative min
quantity — refuting "every TemplateRule in the output has min_qty >= 0 and
max_qty >= 0". -/
theorem load_templates_negative_qty_counterexample :
    load_templates [⟨"T", "usher", "-1", "2"⟩] =
      .ok [("T", ⟨"T", [⟨"usher", -1, 2⟩]⟩)] ∧
    ((-1 : Int) < 0) :=
  ⟨by rfl, by decide⟩

/-- C8 (amended): quantity cells are parsed as (optionally signed) decimal
integers — a row whose quantity fails to parse makes the whole template
load fail rather than defaulting, and in any accepted table each rule's
quantities are exactly the parses of that row's cells; non-negativity,
however, is not validated (negative quantities are accepted, as the
counterexample shows). -/
theorem load_templates_int_parsing (rows : List TemplateRow)
    (r : TemplateRow) (hr : r ∈ rows) :
    ((∃ e, parseRule r = .error e) →
      ∃ err, load_templates rows = .error err) ∧
    (∀ t, parseRule r = .ok t →
      pythonInt r.min_qty = .ok t.min_qty ∧
      pythonInt r.max_qty = .ok t.max_qty) := by
  constructor
  · intro ⟨e, he⟩
    have hkey : r.event_template ∈ groupKeys rows :=
      (mem_groupKeys rows r.event_template).mpr
        (List.mem_map.mpr ⟨r, hr, rfl⟩)
    have hrfil : r ∈ rows.filter (fun x => x.event_template = r.event_template) :=
      List.mem_filter.mpr ⟨hr, by simp⟩
    obtain ⟨e', he'⟩ := parseRules_error_of_mem _ r e hrfil he
    exact load_templates_go_error_of_bad_group rows (groupKeys rows) []
      ⟨r.event_template, hkey, e', he'⟩
  · intro t htok
    cases hmin : pythonInt r.min_qty with
    | error e => simp [parseRule, hmin] at htok
    | ok mn =>
        cases hmax : pythonInt r.max_qty with
        | error e => simp [parseRule, hmin, hmax] at htok
        | ok mx =>
            simp only [parseRule, hmin, hmax, Except.ok.injEq] at htok
            rw [← htok]
            exact ⟨rfl, rfl⟩

/-- Witness for C8 (amended): a non-numeric quantity cell "x" aborts the
load; numeric cells parse to their integer values. -/
theorem load_templates_int_parsing_witness :
    (∃ err, load_templates [⟨"T", "usher", "x", "2"⟩] = .error err) ∧
    (pythonInt "1" = .ok 1 ∧ pythonInt "2" = .ok 2) :=
  ⟨(load_templates_int_parsing [⟨"T", "usher", "x", "2"⟩]
      ⟨"T", "usher", "x", "2"⟩ (by decide)).1
      ⟨.malformedField "x", by rfl⟩,
   (load_templates_int_parsing [⟨"T", "usher", "1", "2"⟩]
      ⟨"T", "usher", "1", "2"⟩ (by decide)).2
      ⟨"usher", 1, 2⟩ (by rfl)⟩

/-- Witness for C5: on a concrete two-row calendar, the event sorted to the
front comes from the second row, with its date kept and its template name
trimmed. -/
theorem load_events_sorted_stable_witness :
    ∃ q ∈ [EventRow.mk 5 " B ", EventRow.mk 3 "A"],
      (Event.mk 3 "A").date = q.date ∧
      (Event.mk 3 "A").event_template = trimStr q.event_template :=
  (load_events_sorted_stable [⟨5, " B "⟩, ⟨3, "A"⟩]).2.2.1 ⟨3, "A"⟩ (by decide)
